import Mathlib

/-!
A verification development for a small git-repository visualizer written in
Python (three files: git_dependency_visualizer.py, visualizer.py, test.py).

The Python code is shallowly embedded: byte strings become lists of natural
numbers (one per byte), text strings become Lean strings, the object store
(the .git/objects directory, mapping a 40-character hash to a DEFLATE-
compressed file) becomes an association list from hashes to the *result* of
decompressing the stored entry (decompression itself is an external
primitive:  an entry is either `corrupt`, meaning zlib.decompress raises, or
`ok content` with the decompressed bytes).  Python exceptions become an
explicit error type carried in `Except`.  UTF-8 decoding is modelled on the
ASCII plane: bytes below 128 decode to the corresponding character, any byte
at or above 128 makes decoding fail (multi-byte UTF-8 sequences are not
modelled; every payload these programs are concerned with is ASCII).
-/

deriving instance DecidableEq for Except

namespace GitViz

/-- A byte string: one natural number (0–255) per byte. -/
abbrev Bytes := List Nat

/-- The bytes of an ASCII string. -/
def asciiBytes (s : String) : Bytes := s.data.map Char.toNat

/-- Model of Python `bytes.decode("utf-8")`, restricted to the ASCII plane:
succeeds iff every byte is below 128. -/
def decodeAscii (b : Bytes) : Option String :=
  if b.all (fun c => decide (c < 128)) then some (String.mk (b.map Char.ofNat)) else none

/-- `listStartsWith pat l` is true iff `pat` is an initial segment of `l`. -/
def listStartsWith [DecidableEq α] : List α → List α → Bool
  | [], _ => true
  | _ :: _, [] => false
  | a :: pat, b :: l => if a = b then listStartsWith pat l else false

/-- Model of Python `str.startswith`. -/
def pyStartsWith (s pre : String) : Bool := listStartsWith pre.data s.data

/-- Model of Python `bytes.startswith` against an ASCII pattern. -/
def bytesStartsWith (b : Bytes) (s : String) : Bool := listStartsWith (asciiBytes s) b

/-- `listIsInfix pat l` is true iff `pat` occurs contiguously inside `l`. -/
def listIsInfix [DecidableEq α] (pat : List α) : List α → Bool
  | [] => pat.isEmpty
  | b :: l => listStartsWith pat (b :: l) || listIsInfix pat l

/-- Model of Python `needle in hay` for strings (substring test). -/
def isSubstr (needle hay : String) : Bool := listIsInfix needle.data hay.data

/-- Split at the first occurrence of `c`: `some (before, after)`, or `none`
when `c` does not occur.  Models Python `split(sep, 1)` when it yields two
pieces (`none` is the case where unpacking two variables raises ValueError),
and `bytes.split(b"\x00", 1)` likewise. -/
def splitFirst [DecidableEq α] (c : α) : List α → Option (List α × List α)
  | [] => none
  | a :: as =>
    if a = c then some ([], as)
    else (splitFirst c as).map (fun p => (a :: p.1, p.2))

/-- Split a character list at every occurrence of `c` (empty pieces kept). -/
def splitChar (c : Char) : List Char → List (List Char)
  | [] => [[]]
  | a :: as =>
    let r := splitChar c as
    if a = c then [] :: r
    else
      match r with
      | [] => [[a]]
      | h :: t => (a :: h) :: t

/-- Model of Python `str.split("\n")`. -/
def pyLines (s : String) : List String := (splitChar '\n' s.data).map String.mk

/-- Model of Python `str.split()` (split on whitespace, dropping empty
pieces; the payloads concerned use only spaces as separators). -/
def pySplit (s : String) : List String :=
  ((splitChar ' ' s.data).map String.mk).filter (fun t => t ≠ "")

/-- Join a list of lines with newlines, as Python `"\n".join(lines)`. -/
def joinWithNL : List String → List Char
  | [] => []
  | [s] => s.data
  | s :: rest => s.data ++ '\n' :: joinWithNL rest

/-- Model of Python `"\n".join(lines)`. -/
def pyJoin (lines : List String) : String := String.mk (joinWithNL lines)

/-- Digit accumulation for `pyInt`. -/
def digitsToNat (acc : Nat) : List Char → Option Nat
  | [] => some acc
  | c :: cs => if c.isDigit then digitsToNat (acc * 10 + (c.toNat - '0'.toNat)) cs else none

/-- Model of Python `int(s)` on decimal literals: optional sign followed by
at least one digit (whitespace stripping and underscores are not modelled;
the tokens concerned are plain digit runs). -/
def pyInt (s : String) : Option Int :=
  match s.data with
  | [] => none
  | '-' :: rest => if rest.isEmpty then none else (digitsToNat 0 rest).map (fun n => -(n : Int))
  | '+' :: rest => if rest.isEmpty then none else (digitsToNat 0 rest).map (fun n => (n : Int))
  | _ => (digitsToNat 0 s.data).map (fun n => (n : Int))

/-- Whitespace recognised by Python `str.strip()`. -/
def isSpaceChar (c : Char) : Bool := c = ' ' || c = '\n' || c = '\t' || c = '\r'

/-- Model of Python `str.strip()`. -/
def pyStrip (s : String) : String :=
  String.mk (((s.data.dropWhile isSpaceChar).reverse.dropWhile isSpaceChar).reverse)

/-- Insert `x` into `l` before the first element `y` with `le x y` (and
after every earlier element).  The building block of the stable sort. -/
def insortBy (le : α → α → Bool) (x : α) : List α → List α
  | [] => [x]
  | y :: ys => if le x y then x :: y :: ys else y :: insortBy le x ys

/-- Stable insertion sort.  Models Python `list.sort(key=...)`: Python's
sort is stable, and a stable sort under a total preorder is unique, so
insertion sort (which keeps equal elements in their original order)
computes the same list Python does. -/
def pySortBy (le : α → α → Bool) : List α → List α
  | [] => []
  | x :: xs => insortBy le x (pySortBy le xs)

/-- Python exceptions raised by the embedded code.  In the spec's error
taxonomy, `fileNotFoundError` plays ObjectNotFound, `zlibError` plays
CorruptObject, and `unicodeDecodeError` plays EncodingError. -/
inductive PyError where
  | fileNotFoundError
  | zlibError
  | valueError
  | unicodeDecodeError
  | indexError
  | keyError
  | typeError
deriving DecidableEq, Repr

/-- One stored loose object, abstracted past decompression: `corrupt` when
`zlib.decompress` raises on the stored bytes, `ok content` when it returns
`content`. -/
inductive ZEntry where
  | corrupt
  | ok (content : Bytes)
deriving DecidableEq, Repr

/-- The `.git/objects` directory: hash (directory name + file name) to the
stored entry, in directory-walk order.  Paths are derived injectively from
hashes, so each hash names at most one file; re-reading an enumerated object
by its hash returns the same entry. -/
abbrev Store := List (String × ZEntry)

/-- First-match association lookup (a filesystem path resolves uniquely). -/
def dget [DecidableEq α] (k : α) : List (α × β) → Option β
  | [] => none
  | (k', v) :: rest => if k' = k then some v else dget k rest

/-- Model of Python `dict` assignment `d[k] = v`: replaces the value at an
existing key in place, otherwise appends the new binding (insertion order is
preserved, as for Python dicts). -/
def dset [DecidableEq α] (d : List (α × β)) (k : α) (v : β) : List (α × β) :=
  if d.any (fun e => decide (e.1 = k)) then
    d.map (fun e => if e.1 = k then (k, v) else e)
  else d ++ [(k, v)]

/-- Commit metadata as the dict built by git_dependency_visualizer.py. -/
abbrev Dict := List (String × String)

namespace GDV

/-- The per-entry part of `read_git_object` (git_dependency_visualizer.py):
decompress (`corrupt` raises zlib.error), split the decompressed bytes at
the first null byte (`header, data = decompressed_data.split(b"\x00", 1)`;
no null byte means unpacking raises ValueError), and decode the header
(`header.decode()`, UnicodeDecodeError on failure).  The payload stays in
bytes. -/
def read_git_object_entry (e : ZEntry) : Except PyError (String × Bytes) :=
  match e with
  | .corrupt => .error .zlibError
  | .ok decompressed_data =>
    match splitFirst 0 decompressed_data with
    | none => .error .valueError
    | some (hdr, data) =>
      match decodeAscii hdr with
      | none => .error .unicodeDecodeError
      | some header => .ok (header, data)

/-- `read_git_object` (git_dependency_visualizer.py): locate the entry at
the path derived from the hash (missing file raises FileNotFoundError),
then read it as above.  Note: the declared length in the header is never
parsed or checked. -/
def read_git_object (store : Store) (object_hash : String) : Except PyError (String × Bytes) :=
  match dget object_hash store with
  | none => .error .fileNotFoundError
  | some e => read_git_object_entry e

/-- Loop of `parse_commit_data` (git_dependency_visualizer.py): for each
line until the first empty line, `key, value = line.split(" ", 1)` (a line
with no space raises ValueError) and `metadata[key] = value` — a repeated
key (such as a second `parent` line) overwrites the earlier value. -/
def parse_commit_data_lines : List String → Dict → Except PyError Dict
  | [], metadata => .ok metadata
  | line :: rest, metadata =>
    if line = "" then .ok metadata
    else
      match splitFirst ' ' line.data with
      | none => .error .valueError
      | some (key, value) =>
        parse_commit_data_lines rest (dset metadata (String.mk key) (String.mk value))

/-- `parse_commit_data` (git_dependency_visualizer.py) applied to decoded
text.  (The source uses `splitlines()`; on the newline-separated payloads
concerned this agrees with splitting at `'\n'`, up to a trailing empty
piece that the blank-line break makes irrelevant.) -/
def parse_commit_data (commit_data : String) : Except PyError Dict :=
  parse_commit_data_lines (pyLines commit_data) []

/-- `parse_commit_data` as actually invoked by `build_dependency_graph`:
the source passes the *byte* payload to a parser written for text.  In
Python, `bytes.splitlines()` succeeds, the comparison `line == ""` is false
for a bytes line, and `line.split(" ", 1)` on bytes with a str separator
raises TypeError — so any nonempty payload raises TypeError, and only the
empty payload yields the empty dict. -/
def parse_commit_data_bytes (data : Bytes) : Except PyError Dict :=
  if data.isEmpty then .ok [] else .error .typeError

/-- Loop of `find_commits` (git_dependency_visualizer.py).  The read is
*outside* the try block, so any read error aborts the whole scan; inside
the try block only UnicodeDecodeError is caught (printing a diagnostic and
continuing), while parse errors propagate.  The second component of the
result collects the hashes for which a diagnostic was printed. -/
def find_commits_go (target_file : String) :
    List (String × ZEntry) → List String → List String →
    Except PyError (List String × List String)
  | [], commits, diags => .ok (commits, diags)
  | (obj_hash, e) :: rest, commits, diags =>
    match read_git_object_entry e with
    | .error err => .error err
    | .ok (header, data) =>
      if pyStartsWith header "commit" then
        match decodeAscii data with
        | none => find_commits_go target_file rest commits (diags ++ [obj_hash])
        | some commit_data =>
          match parse_commit_data commit_data with
          | .error err => .error err
          | .ok parsed_data =>
            if isSubstr target_file ((dget "tree" parsed_data).getD "") then
              find_commits_go target_file rest (commits ++ [obj_hash]) diags
            else
              find_commits_go target_file rest commits diags
      else
        find_commits_go target_file rest commits diags

/-- `find_commits` (git_dependency_visualizer.py): scan every enumerated
object; for commit objects, include the hash when the target string occurs
as a substring of the parsed `tree` field. -/
def find_commits (store : Store) (target_file : String) :
    Except PyError (List String × List String) :=
  find_commits_go target_file store [] []

/-- Loop of `build_dependency_graph` (git_dependency_visualizer.py): re-read
each selected commit, parse the (byte) payload, and set
`graph[commit_hash] = metadata.get("parent", "").split()`. -/
def build_dependency_graph_go (store : Store) :
    List String → List (String × List String) →
    Except PyError (List (String × List String))
  | [], graph => .ok graph
  | commit_hash :: rest, graph =>
    match read_git_object store commit_hash with
    | .error err => .error err
    | .ok (_, data) =>
      match parse_commit_data_bytes data with
      | .error err => .error err
      | .ok metadata =>
        build_dependency_graph_go store rest
          (dset graph commit_hash (pySplit ((dget "parent" metadata).getD "")))

/-- `build_dependency_graph` (git_dependency_visualizer.py). -/
def build_dependency_graph (store : Store) (commits : List String) :
    Except PyError (List (String × List String)) :=
  build_dependency_graph_go store commits []

/-- The node declaration emitted by `generate_graphviz` for one commit. -/
def node_line (commit : String) : String :=
  "    \"" ++ commit ++ "\" [label=\"" ++ commit ++ "\"];"

/-- The edge statement emitted by `generate_graphviz` for one parent. -/
def edge_line (commit parent : String) : String :=
  "    \"" ++ commit ++ "\" -> \"" ++ parent ++ "\";"

/-- `generate_graphviz` (git_dependency_visualizer.py): the opening block,
then — per graph entry, in insertion order — one node declaration followed
by one edge statement per parent, then the closing brace; joined with
newlines.  (The source appends these lines to one list in a loop; the
flattened map below builds the same list.) -/
def generate_graphviz (graph : List (String × List String)) : String :=
  pyJoin (["digraph G \x7b", "    node [shape=box, fontsize=10];"]
    ++ (graph.map (fun e => node_line e.1 :: e.2.map (edge_line e.1))).flatten
    ++ ["\x7d"])

end GDV

namespace Viz

/-- Python `line.split()[1]`: the second whitespace token, IndexError when
the line has fewer than two tokens. -/
def token1 (line : String) : Except PyError String :=
  match (pySplit line)[1]? with
  | none => .error .indexError
  | some v => .ok v

/-- Python `line.split()[-2]`: the second-to-last whitespace token,
IndexError when the line has fewer than two tokens. -/
def tokenNeg2 (line : String) : Except PyError String :=
  let parts := pySplit line
  match parts[parts.length - 2]? with
  | none => .error .indexError
  | some v => if parts.length ≥ 2 then .ok v else .error .indexError

/-- Python `int(tok)`: ValueError on a non-numeric token. -/
def pyIntE (tok : String) : Except PyError Int :=
  match pyInt tok with
  | none => .error .valueError
  | some n => .ok n

/-- Loop of `parse_commit_object` (visualizer.py): over the lines of the
decoded object, a `tree`-prefixed line overwrites the tree hash, a
`parent`-prefixed line appends its second token to the parent list (order
preserved), an `author`-prefixed line overwrites the timestamp with
`int(line.split()[-2])`, an empty line stops the loop, and any other line
is ignored.  Accumulators are the current tree hash, parent list, and
author time. -/
def parse_commit_object_go :
    List String → Option String → List String → Option Int →
    Except PyError (Option String × List String × Option Int)
  | [], tree_hash, parents, author_time => .ok (tree_hash, parents, author_time)
  | line :: rest, tree_hash, parents, author_time =>
    if pyStartsWith line "tree" then
      match token1 line with
      | .error err => .error err
      | .ok v => parse_commit_object_go rest (some v) parents author_time
    else if pyStartsWith line "parent" then
      match token1 line with
      | .error err => .error err
      | .ok v => parse_commit_object_go rest tree_hash (parents ++ [v]) author_time
    else if pyStartsWith line "author" then
      match tokenNeg2 line with
      | .error err => .error err
      | .ok tok =>
        match pyIntE tok with
        | .error err => .error err
        | .ok n => parse_commit_object_go rest tree_hash parents (some n)
    else if line = "" then .ok (tree_hash, parents, author_time)
    else parse_commit_object_go rest tree_hash parents author_time

/-- `parse_commit_object` (visualizer.py), over `commit_data.split('\n')`.
Note the caller passes the whole decompressed object, so the first line is
`commit <len>\0tree <hash>` — it starts with `commit`, matches none of the
recognised prefixes, and is ignored; the real `tree` line of a stored
commit is therefore never seen on its own line by this pipeline, which is
harmless here since only parents and the author time are consumed. -/
def parse_commit_object (commit_data : String) :
    Except PyError (Option String × List String × Option Int) :=
  parse_commit_object_go (pyLines commit_data) none [] none

/-- `read_git_object` (visualizer.py): explicit existence check
(FileNotFoundError), then decompression (zlib.error when corrupt).  This
variant returns the whole decompressed byte string, header included — it
never splits at the null byte. -/
def read_git_object (store : Store) (object_hash : String) : Except PyError Bytes :=
  match dget object_hash store with
  | none => .error .fileNotFoundError
  | some .corrupt => .error .zlibError
  | some (.ok content) => .ok content

/-- Body of the scan loop of `get_all_commits` (visualizer.py), for one
enumerated object: the whole body runs under `except Exception: continue`,
so a corrupt entry, a non-UTF-8 payload, a parse error, or a missing or
non-numeric author time all yield `none` (skip); a commit whose author
time is at or before the cutoff yields its hash and time. -/
def scan_step (date_before : Int) (e : ZEntry) (obj_hash : String) : Option (String × Int) :=
  match e with
  | .corrupt => none
  | .ok object_data =>
    if bytesStartsWith object_data "commit" then
      match decodeAscii object_data with
      | none => none
      | some s =>
        match parse_commit_object s with
        | .error _ => none
        | .ok (_, _, none) => none
        | .ok (_, _, some author_time) =>
          if author_time ≤ date_before then some (obj_hash, author_time) else none
    else none

/-- The `(hash, time)` pairs collected by `get_all_commits` (visualizer.py)
before sorting, in directory-walk (encounter) order.  (The loop appends
each surviving pair to a list; that is exactly a `filterMap`.) -/
def get_all_commits_scan (store : Store) (date_before : Int) : List (String × Int) :=
  store.filterMap (fun e => scan_step date_before e.2 e.1)

/-- The comparison used by `commits.sort(key=lambda x: x[1])`. -/
def timeLe (a b : String × Int) : Bool := a.2 ≤ b.2

/-- `get_all_commits` (visualizer.py): scan the whole store, keep commits
at or before the cutoff, sort stably by timestamp ascending (Python
`list.sort` is stable; `pySortBy` is the stable sort of this
development), and drop the timestamps. -/
def get_all_commits (store : Store) (date_before : Int) : List String :=
  ((pySortBy timeLe (get_all_commits_scan store date_before)).map (fun c => c.1))

/-- Loop of `build_commit_graph` (visualizer.py): re-read each selected
hash (errors now propagate — nothing is caught here), decode, parse, and
set `commit_graph[commit_hash] = parents`. -/
def build_commit_graph_go (store : Store) :
    List String → List (String × List String) →
    Except PyError (List (String × List String))
  | [], commit_graph => .ok commit_graph
  | commit_hash :: rest, commit_graph =>
    match read_git_object store commit_hash with
    | .error err => .error err
    | .ok content =>
      match decodeAscii content with
      | none => .error .unicodeDecodeError
      | some commit_data =>
        match parse_commit_object commit_data with
        | .error err => .error err
        | .ok (_, parents, _) =>
          build_commit_graph_go store rest (dset commit_graph commit_hash parents)

/-- `build_commit_graph` (visualizer.py). -/
def build_commit_graph (store : Store) (date_before : Int) :
    Except PyError (List (String × List String)) :=
  build_commit_graph_go store (get_all_commits store date_before) []

/-- The inner loop of `generate_plantuml`: one `(parent, commit, i)` triple
per parent, with the running index `i` incremented after each edge. -/
def plantuml_inner (commit : String) (i : Nat) : List String → List (String × String × Nat)
  | [] => []
  | p :: ps => (p, commit, i) :: plantuml_inner commit (i + 1) ps

/-- The edge triples emitted by `generate_plantuml`, in output order: for
each graph entry with a nonempty parent list, one triple per parent; the
index threads through the whole output. -/
def plantuml_triples : List (String × List String) → Nat → List (String × String × Nat)
  | [], _ => []
  | (commit, parents) :: rest, i =>
    if parents.isEmpty then plantuml_triples rest i
    else plantuml_inner commit i parents ++ plantuml_triples rest (i + parents.length)

/-- The edge statement `"<parent> (i)" --> "<commit> (i+1)"` rendered from
one triple. -/
def plantuml_edge (t : String × String × Nat) : String :=
  "\"" ++ t.1 ++ " (" ++ toString t.2.2 ++ ")\" --> \"" ++ t.2.1 ++ " (" ++
    toString (t.2.2 + 1) ++ ")\""

/-- `generate_plantuml` (visualizer.py): `@startuml`, one edge statement
per triple, `@enduml`, joined with newlines.  Commits with an empty parent
list contribute no line at all. -/
def generate_plantuml (commit_graph : List (String × List String)) : String :=
  pyJoin (["@startuml"] ++ (plantuml_triples commit_graph 1).map plantuml_edge ++ ["@enduml"])

end Viz

namespace Test

/-- The commit dict built by `parse_commit_data` (test.py).  The dict's
possible keys are fixed by the parser, so it is modelled as a record of
optional fields; absence of a field is absence of the key. -/
structure CommitData where
  commit_hash : String
  parent : Option String := none
  author : Option String := none
  committer : Option String := none
  committer_email : Option String := none
  committer_timestamp : Option Int := none
  tree : Option String := none
  message : Option String := none
deriving DecidableEq, Repr

/-- Loop of `parse_commit_data` (test.py): over *all* lines of the decoded
data (there is no blank-line break in this variant, so message lines are
scanned too).  Each recognised prefix overwrites its field; in particular a
later `parent` line overwrites an earlier one, so only the last `parent`
line is retained.  A `committer` line stores the second token, the third
token, and `int` of the second-to-last token. -/
def parse_commit_data_go : List String → CommitData → Except PyError CommitData
  | [], cd => .ok cd
  | line :: rest, cd =>
    if pyStartsWith line "parent" then
      match Viz.token1 line with
      | .error err => .error err
      | .ok v => parse_commit_data_go rest { cd with parent := some v }
    else if pyStartsWith line "author" then
      match Viz.token1 line with
      | .error err => .error err
      | .ok v => parse_commit_data_go rest { cd with author := some v }
    else if pyStartsWith line "committer" then
      match (pySplit line)[1]? with
      | none => .error .indexError
      | some name =>
        match (pySplit line)[2]? with
        | none => .error .indexError
        | some email =>
          match Viz.tokenNeg2 line with
          | .error err => .error err
          | .ok tok =>
            match Viz.pyIntE tok with
            | .error err => .error err
            | .ok ts =>
              parse_commit_data_go rest
                { cd with committer := some name, committer_email := some email,
                          committer_timestamp := some ts }
    else if pyStartsWith line "tree" then
      match Viz.token1 line with
      | .error err => .error err
      | .ok v => parse_commit_data_go rest { cd with tree := some v }
    else if pyStartsWith line "message" then
      match Viz.token1 line with
      | .error err => .error err
      | .ok v => parse_commit_data_go rest { cd with message := some v }
    else parse_commit_data_go rest cd

/-- `parse_commit_data` (test.py): decode the whole decompressed object
(UnicodeDecodeError propagates) and run the line loop.  As in
visualizer.py, the undecoded header precedes the first line. -/
def parse_commit_data (data : Bytes) (commit_hash : String) : Except PyError CommitData :=
  match decodeAscii data with
  | none => .error .unicodeDecodeError
  | some s => parse_commit_data_go (pyLines s) { commit_hash := commit_hash }

/-- `read_commit` (test.py): reject a hash shorter than 40 characters with
ValueError *before* any filesystem access; then check existence
(FileNotFoundError), decompress (zlib.error), and parse. -/
def read_commit (commit_hash : String) (store : Store) : Except PyError CommitData :=
  if commit_hash.length < 40 then .error .valueError
  else
    match dget commit_hash store with
    | none => .error .fileNotFoundError
    | some .corrupt => .error .zlibError
    | some (.ok decompressed_data) => parse_commit_data decompressed_data commit_hash

/-- The `while current_commit_hash:` loop of `get_commits_after_date`
(test.py), with explicit fuel bounding the number of iterations (the
Python loop runs until a commit has no parent; every theorem below
supplies fuel exceeding the length of the chain concerned).  Each step
reads the current commit (errors propagate — nothing is caught), includes
it when its committer timestamp is at or after the cutoff (a missing
timestamp raises KeyError), and continues at `commit_data.get('parent')`,
stopping when that is absent or empty. -/
def walk_commits (store : Store) (start_date : Int) : Nat → String → Except PyError (List CommitData)
  | 0, _ => .ok []
  | fuel + 1, current_commit_hash =>
    match read_commit current_commit_hash store with
    | .error err => .error err
    | .ok commit_data =>
      match commit_data.committer_timestamp with
      | none => .error .keyError
      | some ts =>
        let included := if start_date ≤ ts then [commit_data] else []
        match commit_data.parent with
        | none => .ok included
        | some p =>
          if p = "" then .ok included
          else
            match walk_commits store start_date fuel p with
            | .error err => .error err
            | .ok rest => .ok (included ++ rest)

/-- `get_commits_after_date` (test.py): resolve HEAD — a `ref:`-prefixed
content names a branch file whose stripped content is the starting hash,
anything else is taken as the hash itself — then walk the parent chain.
`head_content` is the content of `.git/HEAD` and `refs` maps branch-file
paths to their contents. -/
def get_commits_after_date (store : Store) (head_content : String)
    (refs : List (String × String)) (start_date : Int) (fuel : Nat) :
    Except PyError (List CommitData) :=
  let ref := pyStrip head_content
  if pyStartsWith ref "ref:" then
    match (pySplit ref)[1]? with
    | none => .error .indexError
    | some branch_ref =>
      match dget branch_ref refs with
      | none => .error .fileNotFoundError
      | some c => walk_commits store start_date fuel (pyStrip c)
  else walk_commits store start_date fuel ref

end Test

/-! ### Spec-side derived notions -/

/-- The `parent` header lines of a payload: the lines before the first
blank line that start with `parent`.  This is the spec's notion of "the
number of `parent` lines in the raw payload" (header lines only; the
free-text message follows the blank separator). -/
def headerParentLines (lines : List String) : List String :=
  (lines.takeWhile (fun l => l ≠ "")).filter (fun l => pyStartsWith l "parent")

/-- The parent hashes named by the `parent` header lines, in file order
(second whitespace token of each `parent` header line). -/
def headerParentTokens (lines : List String) : List String :=
  (headerParentLines lines).map (fun l => (pySplit l).getD 1 "")

/-- The hash named by the *last* line starting with `parent` anywhere in
the payload (test.py's parser scans all lines and overwrites). -/
def lastParentToken (lines : List String) : Option String :=
  ((lines.filter (fun l => pyStartsWith l "parent")).getLast?).map
    (fun l => (pySplit l).getD 1 "")

/-- The condition under which `find_commits` includes an enumerated
object: it reads as a commit, its payload decodes, the payload parses,
and the target string occurs as a substring of the parsed `tree` field
(with `""` as the default when no `tree` key was parsed). -/
def gdvIncluded (target : String) (e : ZEntry) : Prop :=
  ∃ header data s md,
    GDV.read_git_object_entry e = .ok (header, data) ∧
    pyStartsWith header "commit" = true ∧
    decodeAscii data = some s ∧
    GDV.parse_commit_data s = .ok md ∧
    isSubstr target ((dget "tree" md).getD "") = true

/-! ### Concrete fixtures used by counterexamples and witnesses -/

/-- A 40-character commit hash (merge commit). -/
def hashM : String := "1111111111111111111111111111111111111111"

/-- A 40-character commit hash (first parent of the merge). -/
def hashA : String := "2222222222222222222222222222222222222222"

/-- A 40-character commit hash (second parent of the merge). -/
def hashB : String := "3333333333333333333333333333333333333333"

/-- Payload text of the merge commit: two `parent` lines, `hashA` first. -/
def textM : String :=
  "commit 0\x00tree t1\nparent " ++ hashA ++ "\nparent " ++ hashB ++
    "\ncommitter C c@x 200 +0000\n\nm"

/-- Payload text of the root commit `hashA` (timestamp 100). -/
def textA : String := "commit 0\x00tree t2\ncommitter C c@x 100 +0000\n\nm"

/-- Payload text of the root commit `hashB` (timestamp 150). -/
def textB : String := "commit 0\x00tree t3\ncommitter C c@x 150 +0000\n\nm"

/-- A store holding the merge commit and its two parents. -/
def storeMerge : Store :=
  [(hashM, .ok (asciiBytes textM)), (hashA, .ok (asciiBytes textA)),
   (hashB, .ok (asciiBytes textB))]

/-- The record test.py's parser produces for `textM`: `parent` holds
`hashB`, the *last* parent line of the payload. -/
def cdMerge : Test.CommitData :=
  { commit_hash := hashM, parent := some hashB, committer := some "C",
    committer_email := some "c@x", committer_timestamp := some 200 }

/-- Merge-commit payload with an `author` line (for the visualizer.py
pipeline, which filters on the author timestamp). -/
def textVizM : String :=
  "commit 0\x00tree t1\nparent " ++ hashA ++ "\nparent " ++ hashB ++
    "\nauthor A a@x 200 +0000\n\nm"

/-- Root-commit payload `hashA` with author timestamp 100. -/
def textVizA : String := "commit 0\x00tree t2\nauthor A a@x 100 +0000\n\nm"

/-- Root-commit payload `hashB` with author timestamp 150. -/
def textVizB : String := "commit 0\x00tree t3\nauthor A a@x 150 +0000\n\nm"

/-- A store holding the merge commit and its two parents, author-stamped. -/
def storeVizMerge : Store :=
  [(hashM, .ok (asciiBytes textVizM)), (hashA, .ok (asciiBytes textVizA)),
   (hashB, .ok (asciiBytes textVizB))]

/-- A store with a single commit whose payload is empty (the only shape
`build_dependency_graph` can process without raising TypeError). -/
def storeEmptyPayload : Store := [("hh", .ok (asciiBytes "commit 0\x00"))]

/-- A loose commit object whose tree hash is `aaa111`. -/
def contentTreeA : Bytes := asciiBytes "commit 1\x00tree aaa111\n\nm"

/-- A loose commit object whose tree hash is `bbb222`. -/
def contentTreeB : Bytes := asciiBytes "commit 1\x00tree bbb222\n\nm"

/-- The two-commit store of the scan-and-filter example. -/
def storeTrees : Store := [("h1", .ok contentTreeA), ("h2", .ok contentTreeB)]

/-- A commit payload whose message bytes are not valid UTF-8 (byte 255). -/
def contentBadUtf8 : Bytes := asciiBytes "commit 1\x00tree ccc333\n\nm" ++ [255]

/-- A store whose first entry cannot be decompressed. -/
def storeCorruptFirst : Store := [("hbad", .corrupt), ("h1", .ok contentTreeA)]

/-! ### Basic lemmas about the string primitives -/

theorem listStartsWith_cons_inv [DecidableEq α] {c : α} {pat l : List α}
    (h : listStartsWith (c :: pat) l = true) :
    ∃ t, l = c :: t ∧ listStartsWith pat t = true := by
  cases l with
  | nil => simp [listStartsWith] at h
  | cons b t =>
    by_cases hc : c = b
    · subst hc
      refine ⟨t, rfl, ?_⟩
      simpa [listStartsWith] using h
    · simp [listStartsWith, hc] at h

theorem pyStartsWith_ne_empty (pre : String) {l : String} {c : Char} {p : List Char}
    (hpre : pre.data = c :: p) (h : pyStartsWith l pre = true) : l ≠ "" := by
  unfold pyStartsWith at h
  rw [hpre] at h
  obtain ⟨t, ht, -⟩ := listStartsWith_cons_inv h
  intro he
  rw [he] at ht
  simp at ht

theorem pyStartsWith_head (pre : String) {l : String} {c : Char} {p : List Char}
    (hpre : pre.data = c :: p) (h : pyStartsWith l pre = true) :
    ∃ t, l.data = c :: t := by
  unfold pyStartsWith at h
  rw [hpre] at h
  obtain ⟨t, ht, -⟩ := listStartsWith_cons_inv h
  exact ⟨t, ht⟩

theorem not_parent_of_tree {l : String} (h : pyStartsWith l "tree" = true) :
    pyStartsWith l "parent" = false := by
  obtain ⟨t, ht⟩ := pyStartsWith_head "tree" (c := 't') rfl h
  cases hp : pyStartsWith l "parent" with
  | false => rfl
  | true =>
    obtain ⟨t', ht'⟩ := pyStartsWith_head "parent" (c := 'p') rfl hp
    rw [ht] at ht'
    exact absurd (List.head_eq_of_cons_eq ht') (by decide)

theorem pyStartsWith_empty_parent : pyStartsWith "" "parent" = false := by decide

/-! ### The Viz parser preserves parent lines (helper for C1 and C3) -/

theorem token1_inv {line v : String} (h : Viz.token1 line = .ok v) :
    (pySplit line)[1]? = some v := by
  unfold Viz.token1 at h
  cases hx : (pySplit line)[1]? with
  | none => rw [hx] at h; exact absurd h (by simp)
  | some w => rw [hx] at h; cases h; rfl

theorem viz_parse_go_parents (lines : List String) (t0 : Option String)
    (ps0 : List String) (a0 : Option Int) (t : Option String) (ps : List String)
    (a : Option Int)
    (h : Viz.parse_commit_object_go lines t0 ps0 a0 = .ok (t, ps, a)) :
    ps = ps0 ++ headerParentTokens lines := by
  induction lines generalizing t0 ps0 a0 with
  | nil =>
    unfold Viz.parse_commit_object_go at h
    cases h
    simp [headerParentTokens, headerParentLines]
  | cons line rest ih =>
    unfold Viz.parse_commit_object_go at h
    by_cases htr : pyStartsWith line "tree" = true
    · rw [if_pos htr] at h
      split at h
      · exact absurd h (by simp)
      · rename_i v htk
        have hne : line ≠ "" := pyStartsWith_ne_empty "tree" (c := 't') rfl htr
        have hnp : pyStartsWith line "parent" = false := not_parent_of_tree htr
        have := ih _ _ _ h
        simpa [headerParentTokens, headerParentLines, hne, hnp] using this
    · rw [if_neg htr] at h
      by_cases hpa : pyStartsWith line "parent" = true
      · rw [if_pos hpa] at h
        split at h
        · exact absurd h (by simp)
        · rename_i v htk
          have hne : line ≠ "" := pyStartsWith_ne_empty "parent" (c := 'p') rfl hpa
          have hv : (pySplit line)[1]? = some v := token1_inv htk
          have := ih _ _ _ h
          simp only [headerParentTokens, headerParentLines] at this ⊢
          simp [hne, hpa, hv, this]
      · rw [if_neg hpa] at h
        have hpa' : pyStartsWith line "parent" = false := by
          cases hx : pyStartsWith line "parent" with
          | false => rfl
          | true => exact absurd hx hpa
        by_cases hau : pyStartsWith line "author" = true
        · rw [if_pos hau] at h
          split at h
          · exact absurd h (by simp)
          · rename_i tok htk
            split at h
            · exact absurd h (by simp)
            · rename_i n hin
              have hne : line ≠ "" :=
                pyStartsWith_ne_empty "author" (c := 'a') rfl hau
              have := ih _ _ _ h
              simpa [headerParentTokens, headerParentLines, hne, hpa'] using this
        · rw [if_neg hau] at h
          by_cases hbl : line = ""
          · rw [if_pos hbl] at h
            cases h
            subst hbl
            simp [headerParentTokens, headerParentLines]
          · rw [if_neg hbl] at h
            have := ih _ _ _ h
            simpa [headerParentTokens, headerParentLines, hbl, hpa'] using this

/-! ### Claim C1: parent lines versus the parsed parent sequence -/

/-- C1 (corrected): the claim as stated fails for the dict-based parser
`parse_commit_data` (git_dependency_visualizer.py): on a payload with two
`parent` header lines, the second assignment overwrites the first, the
parsed metadata retains only `"bbb"`, and the parent list derived from it
downstream (`metadata.get("parent", "").split()`) has length 1, not 2 —
the first parent `"aaa"` is lost entirely. -/
theorem c1_counterexample_dict_parser_drops_parents :
    GDV.parse_commit_data "tree roottree\nparent aaa\nparent bbb\n\nmsg"
      = .ok [("tree", "roottree"), ("parent", "bbb")]
    ∧ (headerParentLines (pyLines "tree roottree\nparent aaa\nparent bbb\n\nmsg")).length = 2
    ∧ pySplit ((dget "parent" [("tree", "roottree"), ("parent", "bbb")]).getD "")
        = ["bbb"] := by decide

/-- C1 (amended): the property does hold for the list-based parser
`parse_commit_object` (visualizer.py): whenever it succeeds, the parsed
parent sequence is exactly the second token of each `parent` header line,
in file order — so its length equals the number of `parent` header lines
and order is preserved.  (The dict-based `parse_commit_data` retains only
the last `parent` line, as the counterexample shows.) -/
theorem c1_parse_commit_object_preserves_parent_lines (commit_data : String)
    (t : Option String) (ps : List String) (a : Option Int)
    (h : Viz.parse_commit_object commit_data = .ok (t, ps, a)) :
    ps = headerParentTokens (pyLines commit_data)
    ∧ ps.length = (headerParentLines (pyLines commit_data)).length := by
  have hps := viz_parse_go_parents _ _ _ _ _ _ _ h
  simp only [List.nil_append] at hps
  exact ⟨hps, by rw [hps]; simp [headerParentTokens]⟩

/-- Witness for C1 (amended): a merge payload with parents `aaa` then
`bbb`, and a `parent zzz` line in the message body that the header region
correctly excludes. -/
theorem c1_parse_commit_object_witness :
    (["aaa", "bbb"] : List String) = headerParentTokens
        (pyLines "tree t\nparent aaa\nparent bbb\nauthor X x@y 5 +0000\n\nparent zzz")
    ∧ (["aaa", "bbb"] : List String).length = (headerParentLines
        (pyLines "tree t\nparent aaa\nparent bbb\nauthor X x@y 5 +0000\n\nparent zzz")).length :=
  c1_parse_commit_object_preserves_parent_lines
    "tree t\nparent aaa\nparent bbb\nauthor X x@y 5 +0000\n\nparent zzz"
    (some "t") ["aaa", "bbb"] (some 5) (by decide)

/-! ### Claim C2: which parent the ancestry walk follows -/

/-- C2 (corrected): the claim as stated is false — at a merge commit the
walk follows the *second* (last) parent line, not the first.  Concretely:
`hashM`'s payload lists parents `[hashA, hashB]` in that order, yet the
walk from `hashM` visits `hashM` then `hashB`. -/
theorem c2_counterexample_walk_follows_last_parent :
    (Test.get_commits_after_date storeMerge hashM [] 0 5).map
        (fun l => l.map (fun c => c.commit_hash)) = .ok [hashM, hashB]
    ∧ headerParentTokens (pyLines textM) = [hashA, hashB]
    ∧ hashB ≠ hashA := by decide

/-! ### Claim C4: per-object failures during bulk scans -/

/-- C4 (corrected): the claim as stated is false — in the
scan-and-filter-by-reference policy (`find_commits`), a corrupt
(non-decompressible) first entry aborts the whole scan with zlib.error,
even though the second entry is a perfectly good commit that the same
scan over a store without the corrupt entry does include. -/
theorem c4_counterexample_corrupt_entry_aborts_scan :
    GDV.find_commits storeCorruptFirst "aaa" = .error .zlibError
    ∧ GDV.find_commits [("h1", .ok contentTreeA)] "aaa" = .ok (["h1"], []) := by decide

/-! ### Claim C5: readObject failure modes -/

/-- C5 (corrected): the claim's "fails … [on] a non-numeric declared
length" part is false — no reader ever parses the declared length.
`read_git_object` (git_dependency_visualizer.py) happily returns the
header `"commit xyz"` whose length field is `xyz`; the visualizer.py
variant returns payloads wholesale without even requiring a null
separator. -/
theorem c5_counterexample_nonnumeric_length_not_rejected :
    GDV.read_git_object [("ab12", .ok (asciiBytes "commit xyz\x00data"))] "ab12"
      = .ok ("commit xyz", asciiBytes "data")
    ∧ Viz.read_git_object [("ab12", .ok (asciiBytes "commitnonull"))] "ab12"
      = .ok (asciiBytes "commitnonull") := by decide

/-- C5 (amended): the failure modes that do hold: a missing entry fails
with FileNotFoundError (ObjectNotFound) in both readers, a corrupt entry
fails with zlib.error (CorruptObject) in both, and the header-splitting
reader fails (ValueError) when the decompressed data has no null
separator.  The declared length is never validated. -/
theorem c5_read_object_failure_modes (store : Store) (hsh : String) (content : Bytes) :
    (dget hsh store = none → GDV.read_git_object store hsh = .error .fileNotFoundError)
    ∧ (dget hsh store = some .corrupt → GDV.read_git_object store hsh = .error .zlibError)
    ∧ (dget hsh store = some (.ok content) → splitFirst 0 content = none →
        GDV.read_git_object store hsh = .error .valueError)
    ∧ (dget hsh store = none → Viz.read_git_object store hsh = .error .fileNotFoundError)
    ∧ (dget hsh store = some .corrupt → Viz.read_git_object store hsh = .error .zlibError) := by
  refine ⟨fun h1 => ?_, fun h1 => ?_, fun h1 h2 => ?_, fun h1 => ?_, fun h1 => ?_⟩
  · unfold GDV.read_git_object; rw [h1]
  · unfold GDV.read_git_object; rw [h1]; rfl
  · simp [GDV.read_git_object, GDV.read_git_object_entry, h1, h2]
  · unfold Viz.read_git_object; rw [h1]
  · unfold Viz.read_git_object; rw [h1]

/-- Witness for C5 (amended): a store with one corrupt entry; lookups of a
missing hash and of the corrupt hash fail as stated, and an entry with no
null byte fails with ValueError. -/
theorem c5_read_object_failure_modes_witness :
    (dget "zz" [("cc", ZEntry.corrupt)] = none →
      GDV.read_git_object [("cc", ZEntry.corrupt)] "zz" = .error .fileNotFoundError)
    ∧ (dget "zz" [("cc", ZEntry.corrupt)] = some .corrupt →
      GDV.read_git_object [("cc", ZEntry.corrupt)] "zz" = .error .zlibError)
    ∧ (dget "zz" [("cc", ZEntry.corrupt)] = some (.ok [1, 2]) →
        splitFirst 0 [1, 2] = none →
        GDV.read_git_object [("cc", ZEntry.corrupt)] "zz" = .error .valueError)
    ∧ (dget "zz" [("cc", ZEntry.corrupt)] = none →
      Viz.read_git_object [("cc", ZEntry.corrupt)] "zz" = .error .fileNotFoundError)
    ∧ (dget "zz" [("cc", ZEntry.corrupt)] = some .corrupt →
      Viz.read_git_object [("cc", ZEntry.corrupt)] "zz" = .error .zlibError) :=
  c5_read_object_failure_modes [("cc", ZEntry.corrupt)] "zz" [1, 2]

/-! ### Claim C8: rendering the empty graph -/

/-- C8: rendering the empty CommitGraph yields a syntactically valid,
edge-free block in both variants: the DOT-like renderer emits exactly the
opening block and closing brace with no `->` anywhere, and the
diagram-markup renderer emits exactly `@startuml` and `@enduml` with no
`-->` anywhere. -/
theorem c8_empty_graph_renders_edge_free :
    GDV.generate_graphviz [] = "digraph G \x7b\n    node [shape=box, fontsize=10];\n\x7d"
    ∧ Viz.generate_plantuml [] = "@startuml\n@enduml"
    ∧ isSubstr "->" (GDV.generate_graphviz []) = false
    ∧ isSubstr "-->" (Viz.generate_plantuml []) = false := by decide

/-! ### Claim C10: the diagram-markup renderer emits only edges -/

theorem plantuml_triples_nil_of_empty (graph : List (String × List String)) (i : Nat)
    (h : ∀ e ∈ graph, e.2 = ([] : List String)) : Viz.plantuml_triples graph i = [] := by
  induction graph generalizing i with
  | nil => rfl
  | cons e rest ih =>
    obtain ⟨c, ps⟩ := e
    have hps : ps = [] := h (c, ps) (by simp)
    subst hps
    simpa [Viz.plantuml_triples] using ih i (fun e he => h e (by simp [he]))

/-- C10: the diagram-markup renderer emits no standalone node
declarations: a commit with an empty parent list contributes no output
line at all (dropping it from the graph leaves the output unchanged), and
a CommitGraph in which every commit has an empty parent list renders to
exactly `@startuml` followed by `@enduml`. -/
theorem c10_plantuml_roots_invisible (graph : List (String × List String))
    (c : String) (rest : List (String × List String))
    (h : ∀ e ∈ graph, e.2 = ([] : List String)) :
    Viz.generate_plantuml graph = "@startuml\n@enduml"
    ∧ Viz.generate_plantuml ((c, []) :: rest) = Viz.generate_plantuml rest := by
  constructor
  · unfold Viz.generate_plantuml
    rw [plantuml_triples_nil_of_empty graph 1 h]
    rfl
  · unfold Viz.generate_plantuml
    simp [Viz.plantuml_triples]

/-- Witness for C10: a two-root graph renders to the bare markers, and a
parentless commit in front of a one-edge graph leaves its output
unchanged. -/
theorem c10_plantuml_roots_invisible_witness :
    Viz.generate_plantuml [("r1", []), ("r2", [])] = "@startuml\n@enduml"
    ∧ Viz.generate_plantuml (("r0", []) :: [("x", ["p"])])
        = Viz.generate_plantuml [("x", ["p"])] :=
  c10_plantuml_roots_invisible [("r1", []), ("r2", [])] "r0" [("x", ["p"])]
    (by decide)

/-! ### Claim C9: short hashes are rejected before any read -/

/-- C9: for every store and every hash shorter than 40 characters,
`read_commit` (test.py) fails with ValueError — independently of the store
contents, so an abbreviated hash can never be used to read an object. -/
theorem c9_short_hash_rejected (store : Store) (commit_hash : String)
    (h : commit_hash.length < 40) :
    Test.read_commit commit_hash store = .error .valueError := by
  unfold Test.read_commit
  rw [if_pos h]

/-- Witness for C9: a 3-character hash is rejected even though the store
has an entry under exactly that name. -/
theorem c9_short_hash_rejected_witness :
    Test.read_commit "abc" [("abc", .ok (asciiBytes "commit 1\x00tree t\n\nm"))]
      = .error .valueError :=
  c9_short_hash_rejected [("abc", .ok (asciiBytes "commit 1\x00tree t\n\nm"))] "abc"
    (by decide)

/-! ### Claim C6: scan-and-filter by tree substring -/

theorem not_gdvIncluded_of_not_commit {target header : String} {data : Bytes} {e : ZEntry}
    (hre : GDV.read_git_object_entry e = .ok (header, data))
    (hco : pyStartsWith header "commit" = false) : ¬ gdvIncluded target e := by
  rintro ⟨h', d', s', md', hre', hsw', -, -, -⟩
  rw [hre] at hre'
  cases hre'
  rw [hco] at hsw'
  exact absurd hsw' (by simp)

theorem not_gdvIncluded_of_decode_fail {target header : String} {data : Bytes} {e : ZEntry}
    (hre : GDV.read_git_object_entry e = .ok (header, data))
    (hdc : decodeAscii data = none) : ¬ gdvIncluded target e := by
  rintro ⟨h', d', s', md', hre', -, hdc', -, -⟩
  rw [hre] at hre'
  cases hre'
  rw [hdc] at hdc'
  exact absurd hdc' (by simp)

theorem skip_entry_iff {target hsh c : String} {e : ZEntry}
    {rest : List (String × ZEntry)} {cs : List String}
    (hni : ¬ gdvIncluded target e) :
    (c ∈ cs ∨ ∃ e' ∈ rest, e'.1 = c ∧ gdvIncluded target e'.2) ↔
      (c ∈ cs ∨ ∃ e' ∈ (hsh, e) :: rest, e'.1 = c ∧ gdvIncluded target e'.2) := by
  constructor
  · rintro (hc | ⟨e', he', hc', hi'⟩)
    · exact Or.inl hc
    · exact Or.inr ⟨e', List.mem_cons_of_mem _ he', hc', hi'⟩
  · rintro (hc | ⟨e', he', hc', hi'⟩)
    · exact Or.inl hc
    · rcases List.mem_cons.mp he' with heq | hmem
      · cases heq
        exact absurd hi' hni
      · exact Or.inr ⟨e', hmem, hc', hi'⟩

theorem find_commits_go_spec (target : String) (entries : List (String × ZEntry))
    (cs ds commits diags : List String) (c : String)
    (h : GDV.find_commits_go target entries cs ds = .ok (commits, diags)) :
    c ∈ commits ↔ c ∈ cs ∨ ∃ e ∈ entries, e.1 = c ∧ gdvIncluded target e.2 := by
  induction entries generalizing cs ds with
  | nil =>
    unfold GDV.find_commits_go at h
    cases h
    simp
  | cons ent rest ih =>
    obtain ⟨hsh, e⟩ := ent
    unfold GDV.find_commits_go at h
    split at h
    · exact absurd h (by simp)
    · rename_i header data hre
      by_cases hco : pyStartsWith header "commit" = true
      · rw [if_pos hco] at h
        split at h
        · rename_i hdc
          have hni : ¬ gdvIncluded target e := not_gdvIncluded_of_decode_fail hre hdc
          rw [ih _ _ h]
          exact skip_entry_iff hni
        · rename_i s hdc
          split at h
          · exact absurd h (by simp)
          · rename_i md hmd
            have hinc_iff : gdvIncluded target e ↔
                isSubstr target ((dget "tree" md).getD "") = true := by
              constructor
              · rintro ⟨h', d', s', md', hre', -, hdc', hmd', hsub⟩
                rw [hre] at hre'
                cases hre'
                rw [hdc] at hdc'
                cases hdc'
                rw [hmd] at hmd'
                cases hmd'
                exact hsub
              · intro hsub
                exact ⟨header, data, s, md, hre, hco, hdc, hmd, hsub⟩
            by_cases hsub : isSubstr target ((dget "tree" md).getD "") = true
            · rw [if_pos hsub] at h
              rw [ih _ _ h]
              have hinc : gdvIncluded target e := hinc_iff.mpr hsub
              constructor
              · rintro (hc | ⟨e', he', hc', hi'⟩)
                · rcases List.mem_append.mp hc with hcs | hone
                  · exact Or.inl hcs
                  · have hceq : c = hsh := by simpa using hone
                    exact Or.inr ⟨(hsh, e), List.mem_cons_self _ _, hceq.symm, hinc⟩
                · exact Or.inr ⟨e', List.mem_cons_of_mem _ he', hc', hi'⟩
              · rintro (hc | ⟨e', he', hc', hi'⟩)
                · exact Or.inl (List.mem_append.mpr (Or.inl hc))
                · rcases List.mem_cons.mp he' with heq | hmem
                  · cases heq
                    exact Or.inl (List.mem_append.mpr (Or.inr (by simpa using hc'.symm)))
                  · exact Or.inr ⟨e', hmem, hc', hi'⟩
            · rw [if_neg hsub] at h
              have hni : ¬ gdvIncluded target e := fun hg => hsub (hinc_iff.mp hg)
              rw [ih _ _ h]
              exact skip_entry_iff hni
      · have hco' : pyStartsWith header "commit" = false := by
          cases hx : pyStartsWith header "commit" with
          | false => rfl
          | true => exact absurd hx hco
        rw [if_neg hco] at h
        have hni : ¬ gdvIncluded target e := not_gdvIncluded_of_not_commit hre hco'
        rw [ih _ _ h]
        exact skip_entry_iff hni

/-- C6: whenever `find_commits` completes, a hash is in its result exactly
when some store entry with that hash reads as a commit whose parsed `tree`
field contains the target as a substring. -/
theorem c6_scan_filter_includes_by_tree_substring (store : Store) (target : String)
    (commits diags : List String) (c : String)
    (h : GDV.find_commits store target = .ok (commits, diags)) :
    c ∈ commits ↔ ∃ e ∈ store, e.1 = c ∧ gdvIncluded target e.2 := by
  have := find_commits_go_spec target store [] [] commits diags c h
  simpa using this

/-- C4 (amended): what does hold of per-object failure handling: in
`find_commits`, a commit payload that fails UTF-8 decoding is skipped with
a diagnostic and the scan continues with the remaining objects, but any
error raised by the read itself (corrupt entry, undecodable header,
missing null separator) aborts the whole enumeration; the store-wide date
scan `get_all_commits` (visualizer.py) catches every per-object failure,
skipping corrupt entries and undecodable payloads alike. -/
theorem c4_bulk_scan_failure_handling :
    (∀ (target obj_hash : String) (e : ZEntry) (rest : List (String × ZEntry))
        (cs ds : List String) (header : String) (data : Bytes),
        GDV.read_git_object_entry e = .ok (header, data) →
        pyStartsWith header "commit" = true → decodeAscii data = none →
        GDV.find_commits_go target ((obj_hash, e) :: rest) cs ds
          = GDV.find_commits_go target rest cs (ds ++ [obj_hash]))
    ∧ (∀ (target obj_hash : String) (e : ZEntry) (rest : List (String × ZEntry))
        (cs ds : List String) (err : PyError),
        GDV.read_git_object_entry e = .error err →
        GDV.find_commits_go target ((obj_hash, e) :: rest) cs ds = .error err)
    ∧ (∀ (cutoff : Int) (obj_hash : String) (rest : Store),
        Viz.get_all_commits ((obj_hash, .corrupt) :: rest) cutoff
          = Viz.get_all_commits rest cutoff)
    ∧ (∀ (cutoff : Int) (obj_hash : String) (content : Bytes) (rest : Store),
        decodeAscii content = none →
        Viz.get_all_commits ((obj_hash, .ok content) :: rest) cutoff
          = Viz.get_all_commits rest cutoff) := by
  refine ⟨?_, ?_, ?_, ?_⟩
  · intro target obj_hash e rest cs ds header data h1 h2 h3
    conv_lhs => rw [GDV.find_commits_go]
    rw [h1]
    simp only [h2, if_true, h3]
  · intro target obj_hash e rest cs ds err h1
    unfold GDV.find_commits_go
    rw [h1]
  · intro cutoff obj_hash rest
    unfold Viz.get_all_commits Viz.get_all_commits_scan
    rw [List.filterMap_cons]
    rfl
  · intro cutoff obj_hash content rest h1
    unfold Viz.get_all_commits Viz.get_all_commits_scan
    rw [List.filterMap_cons]
    have hstep : Viz.scan_step cutoff (.ok content) obj_hash = none := by
      simp [Viz.scan_step, h1]
    rw [hstep]

/-- Witness for C4 (amended): a commit with a non-UTF-8 payload is skipped
with a diagnostic by `find_commits` while the scan continues, and
`get_all_commits` survives a corrupt entry. -/
theorem c4_bulk_scan_failure_handling_witness :
    GDV.find_commits_go "aaa" [("hx", ZEntry.ok contentBadUtf8)] [] []
      = GDV.find_commits_go "aaa" [] [] ["hx"]
    ∧ Viz.get_all_commits [("hc", ZEntry.corrupt)] 99 = Viz.get_all_commits [] 99 := by
  constructor
  · exact c4_bulk_scan_failure_handling.1 "aaa" "hx" (ZEntry.ok contentBadUtf8) [] [] []
      "commit 1" (asciiBytes "tree ccc333\n\nm" ++ [255]) (by decide) (by decide) (by decide)
  · exact c4_bulk_scan_failure_handling.2.2.1 99 "hc" []

/-! ### Claim C2 (amended): the walk step and the retained parent -/

theorem lastParentToken_cons_other {line : String} {rest : List String}
    (h : pyStartsWith line "parent" = false) :
    lastParentToken (line :: rest) = lastParentToken rest := by
  unfold lastParentToken
  simp [h]

theorem lastParentToken_cons_parent {line v : String} {rest : List String}
    (hpa : pyStartsWith line "parent" = true) (hv : Viz.token1 line = .ok v) :
    lastParentToken (line :: rest) = (lastParentToken rest).or (some v) := by
  have hv' : (pySplit line)[1]? = some v := token1_inv hv
  unfold lastParentToken
  rw [List.filter_cons_of_pos (by simpa using hpa)]
  cases hfr : rest.filter (fun l => pyStartsWith l "parent") with
  | nil =>
    simp [List.getD_eq_getElem?_getD, hv']
  | cons a l =>
    rw [List.getLast?_cons_cons]
    cases hgl : (a :: l).getLast? with
    | none => exact absurd (List.getLast?_eq_none_iff.mp hgl) (by simp)
    | some x => simp

theorem test_parse_go_parent (lines : List String) (cd0 cd : Test.CommitData)
    (h : Test.parse_commit_data_go lines cd0 = .ok cd) :
    cd.parent = (lastParentToken lines).or cd0.parent := by
  induction lines generalizing cd0 with
  | nil =>
    unfold Test.parse_commit_data_go at h
    cases h
    simp [lastParentToken]
  | cons line rest ih =>
    unfold Test.parse_commit_data_go at h
    by_cases hpa : pyStartsWith line "parent" = true
    · rw [if_pos hpa] at h
      split at h
      · exact absurd h (by simp)
      · rename_i v htk
        rw [lastParentToken_cons_parent hpa htk]
        have := ih _ h
        cases hlp : lastParentToken rest with
        | none => rw [hlp] at this; simpa using this
        | some w => rw [hlp] at this; simpa using this
    · have hpa' : pyStartsWith line "parent" = false := by
        cases hx : pyStartsWith line "parent" with
        | false => rfl
        | true => exact absurd hx hpa
      rw [if_neg hpa] at h
      rw [lastParentToken_cons_other hpa']
      have hstep : ∀ cd1 : Test.CommitData, Test.parse_commit_data_go rest cd1 = .ok cd →
          cd1.parent = cd0.parent → cd.parent = (lastParentToken rest).or cd0.parent := by
        intro cd1 h1 h2
        rw [ih _ h1, h2]
      repeat' split at h
      all_goals
        first
        | exact absurd h (by simp)
        | exact hstep _ h rfl

/-- C2 (amended): the walk step of `get_commits_after_date` (test.py):
from a commit whose parse yields `cd`, the walk prepends `cd` when its
committer timestamp is at or after the cutoff and continues at
`cd.parent` — which is the second token of the *last* `parent`-prefixed
line of the decoded payload (later `parent` lines overwrite earlier ones
in the dict), not the first; the walk stops when no `parent` line was
parsed. -/
theorem c2_walk_follows_last_parent_line (store : Store) (cutoff : Int) (fuel : Nat)
    (hash s : String) (content : Bytes) (cd : Test.CommitData) (ts : Int) (p : String)
    (hlen : ¬ hash.length < 40)
    (hlook : dget hash store = some (.ok content))
    (hdec : decodeAscii content = some s)
    (hparse : Test.parse_commit_data_go (pyLines s) { commit_hash := hash } = .ok cd)
    (hts : cd.committer_timestamp = some ts)
    (hp : cd.parent = some p) (hpne : p ≠ "") :
    (Test.walk_commits store cutoff (fuel + 1) hash
      = match Test.walk_commits store cutoff fuel p with
        | .error err => .error err
        | .ok rest => .ok ((if cutoff ≤ ts then [cd] else []) ++ rest))
    ∧ some p = lastParentToken (pyLines s) := by
  constructor
  · conv_lhs => rw [Test.walk_commits]
    unfold Test.read_commit Test.parse_commit_data
    rw [if_neg hlen, hlook]
    simp only [hdec, hparse, hts, hp, if_neg hpne]
  · have := test_parse_go_parent _ _ _ hparse
    rw [hp] at this
    cases hlp : lastParentToken (pyLines s) with
    | none => rw [hlp] at this; simp at this
    | some w => rw [hlp] at this; simpa using this

/-- Witness for C2 (amended): at the merge commit `hashM` (parents
`hashA` then `hashB`), the walk continues at `hashB`, the token of the
last parent line. -/
theorem c2_walk_follows_last_parent_line_witness :
    (Test.walk_commits storeMerge 0 (3 + 1) hashM
      = match Test.walk_commits storeMerge 0 3 hashB with
        | .error err => .error err
        | .ok rest => .ok ((if (0 : Int) ≤ (200 : Int) then [cdMerge] else []) ++ rest))
    ∧ some hashB = lastParentToken (pyLines textM) :=
  c2_walk_follows_last_parent_line storeMerge 0 3 hashM textM (asciiBytes textM) cdMerge
    200 hashB (by decide) (by decide) (by decide) (by decide) (by decide) (by decide)
    (by decide)

/-! ### Stable sort lemmas -/

theorem insortBy_perm (le : α → α → Bool) (x : α) (l : List α) :
    (insortBy le x l).Perm (x :: l) := by
  induction l with
  | nil => simp [insortBy]
  | cons y ys ih =>
    unfold insortBy
    by_cases hle : le x y = true
    · rw [if_pos hle]
    · rw [if_neg hle]
      exact (ih.cons y).trans (List.Perm.swap x y ys)

theorem pySortBy_perm (le : α → α → Bool) (l : List α) :
    (pySortBy le l).Perm l := by
  induction l with
  | nil => simp [pySortBy]
  | cons x xs ih => exact (insortBy_perm le x _).trans (ih.cons x)

theorem pairwise_insortBy (le : α → α → Bool)
    (htrans : ∀ a b c, le a b = true → le b c = true → le a c = true)
    (htot : ∀ a b, (le a b || le b a) = true) (x : α) (l : List α)
    (h : l.Pairwise (fun a b => le a b = true)) :
    (insortBy le x l).Pairwise (fun a b => le a b = true) := by
  induction l with
  | nil => simp [insortBy]
  | cons y ys ih =>
    rw [List.pairwise_cons] at h
    obtain ⟨hy, hys⟩ := h
    unfold insortBy
    by_cases hle : le x y = true
    · rw [if_pos hle]
      refine List.Pairwise.cons ?_ (List.Pairwise.cons hy hys)
      intro b hb
      rcases List.mem_cons.mp hb with rfl | hbys
      · exact hle
      · exact htrans x y b hle (hy b hbys)
    · rw [if_neg hle]
      have hyx : le y x = true := by
        have := htot x y
        rw [Bool.or_eq_true] at this
        rcases this with hxy | hyx
        · exact absurd hxy hle
        · exact hyx
      refine List.Pairwise.cons ?_ (ih hys)
      intro b hb
      have hbmem : b ∈ x :: ys := (insortBy_perm le x ys).mem_iff.mp hb
      rcases List.mem_cons.mp hbmem with rfl | hbys
      · exact hyx
      · exact hy b hbys

theorem pairwise_pySortBy (le : α → α → Bool)
    (htrans : ∀ a b c, le a b = true → le b c = true → le a c = true)
    (htot : ∀ a b, (le a b || le b a) = true) (l : List α) :
    (pySortBy le l).Pairwise (fun a b => le a b = true) := by
  induction l with
  | nil => simp [pySortBy]
  | cons x xs ih => exact pairwise_insortBy le htrans htot x _ ih

theorem filter_insortBy (le : α → α → Bool) (p : α → Bool) (x : α) (l : List α)
    (hx : p x = true → ∀ y ∈ l, p y = true → le x y = true) :
    (insortBy le x l).filter p
      = if p x = true then x :: l.filter p else l.filter p := by
  induction l with
  | nil => by_cases hpx : p x = true <;> simp [insortBy, List.filter_cons, hpx]
  | cons y ys ih =>
    have ihx := ih (fun hpx z hz hpz => hx hpx z (List.mem_cons_of_mem _ hz) hpz)
    unfold insortBy
    by_cases hle : le x y = true
    · rw [if_pos hle]
      by_cases hpx : p x = true <;> simp [List.filter_cons, hpx]
    · rw [if_neg hle]
      by_cases hpy : p y = true
      · by_cases hpx : p x = true
        · exact absurd (hx hpx y (List.mem_cons_self _ _) hpy) hle
        · simp [List.filter_cons, hpy, hpx, ihx]
      · by_cases hpx : p x = true <;> simp [List.filter_cons, hpy, hpx, ihx]

theorem filter_pySortBy (le : α → α → Bool) (p : α → Bool) (l : List α)
    (hmut : ∀ a b, p a = true → p b = true → le a b = true) :
    (pySortBy le l).filter p = l.filter p := by
  induction l with
  | nil => rfl
  | cons x xs ih =>
    rw [pySortBy]
    rw [filter_insortBy le p x _ (fun hpx y hy hpy => hmut x y hpx hpy)]
    by_cases hpx : p x = true <;> simp [List.filter_cons, hpx, ih]

/-! ### Claim C7: the global date filter -/

theorem scan_step_eq_some {cutoff : Int} {ent : ZEntry} {h0 hsh : String} {tm : Int}
    (hstep : Viz.scan_step cutoff ent h0 = some (hsh, tm)) :
    h0 = hsh ∧ ∃ content, ent = ZEntry.ok content ∧
      bytesStartsWith content "commit" = true ∧
      ∃ s tr ps, decodeAscii content = some s ∧
        Viz.parse_commit_object s = .ok (tr, ps, some tm) ∧ tm ≤ cutoff := by
  unfold Viz.scan_step at hstep
  split at hstep
  · exact absurd hstep (by simp)
  · rename_i content
    split at hstep
    · rename_i hbs
      split at hstep
      · exact absurd hstep (by simp)
      · rename_i s hdec
        split at hstep
        · exact absurd hstep (by simp)
        · exact absurd hstep (by simp)
        · rename_i tr ps atime hp
          split at hstep
          · rename_i hle
            injection hstep with hpair
            rw [Prod.mk.injEq] at hpair
            obtain ⟨hh, ht⟩ := hpair
            subst hh
            subst ht
            exact ⟨rfl, content, rfl, hbs, s, tr, ps, hdec, hp, hle⟩
          · exact absurd hstep (by simp)
    · exact absurd hstep (by simp)

theorem get_all_commits_scan_mem (store : Store) (cutoff : Int) (hsh : String)
    (tm : Int) :
    (hsh, tm) ∈ Viz.get_all_commits_scan store cutoff ↔
      ∃ content, (hsh, ZEntry.ok content) ∈ store ∧
        bytesStartsWith content "commit" = true ∧
        ∃ s tr ps, decodeAscii content = some s ∧
          Viz.parse_commit_object s = .ok (tr, ps, some tm) ∧ tm ≤ cutoff := by
  unfold Viz.get_all_commits_scan
  rw [List.mem_filterMap]
  constructor
  · rintro ⟨⟨h', ent⟩, hmem, hstep⟩
    obtain ⟨hh0, content, hent, hbs, s, tr, ps, hdec, hp, hle⟩ :=
      scan_step_eq_some (hstep : Viz.scan_step cutoff ent h' = some (hsh, tm))
    subst hh0
    subst hent
    exact ⟨content, hmem, hbs, s, tr, ps, hdec, hp, hle⟩
  · rintro ⟨content, hmem, hbs, s, tr, ps, hdec, hp, hle⟩
    refine ⟨(hsh, ZEntry.ok content), hmem, ?_⟩
    simp [Viz.scan_step, hbs, hdec, hp, hle]

/-- C7: the global date-filter mode: `get_all_commits` is the stable
ascending-by-timestamp sort of the scan list projected to hashes; a
`(hash, time)` pair is scanned exactly when some store entry with that
hash holds a commit object whose payload decodes and parses with author
timestamp `time` at or before the cutoff — independent of any
reachability; the sorted list is a permutation of the scan list, is
pairwise ordered by timestamp, and commits of equal timestamp keep their
encounter order (filtering either list to one timestamp value yields the
same list). -/
theorem c7_global_date_filter (store : Store) (cutoff : Int) (hsh : String)
    (tm tq : Int) :
    Viz.get_all_commits store cutoff
      = (pySortBy Viz.timeLe (Viz.get_all_commits_scan store cutoff)).map Prod.fst
    ∧ ((hsh, tm) ∈ Viz.get_all_commits_scan store cutoff ↔
        ∃ content, (hsh, ZEntry.ok content) ∈ store ∧
          bytesStartsWith content "commit" = true ∧
          ∃ s tr ps, decodeAscii content = some s ∧
            Viz.parse_commit_object s = .ok (tr, ps, some tm) ∧ tm ≤ cutoff)
    ∧ (pySortBy Viz.timeLe (Viz.get_all_commits_scan store cutoff)).Perm
        (Viz.get_all_commits_scan store cutoff)
    ∧ (pySortBy Viz.timeLe (Viz.get_all_commits_scan store cutoff)).Pairwise
        (fun a b => a.2 ≤ b.2)
    ∧ (pySortBy Viz.timeLe (Viz.get_all_commits_scan store cutoff)).filter
          (fun e => decide (e.2 = tq))
        = (Viz.get_all_commits_scan store cutoff).filter
            (fun e => decide (e.2 = tq)) := by
  have htrans : ∀ a b c : String × Int,
      Viz.timeLe a b = true → Viz.timeLe b c = true → Viz.timeLe a c = true := by
    intro a b c hab hbc
    simp only [Viz.timeLe, decide_eq_true_eq] at hab hbc ⊢
    omega
  have htot : ∀ a b : String × Int, (Viz.timeLe a b || Viz.timeLe b a) = true := by
    intro a b
    simp only [Viz.timeLe, Bool.or_eq_true, decide_eq_true_eq]
    omega
  refine ⟨rfl, get_all_commits_scan_mem store cutoff hsh tm, pySortBy_perm _ _, ?_, ?_⟩
  · exact List.Pairwise.imp (fun hab => by simpa [Viz.timeLe] using hab)
      (pairwise_pySortBy _ htrans htot _)
  · refine filter_pySortBy _ _ _ (fun a b ha hb => ?_)
    simp only [decide_eq_true_eq] at ha hb
    simp [Viz.timeLe, ha, hb]

/-! ### Claim C3: edge counts per merge commit -/

theorem mem_dset [DecidableEq α] {d : List (α × β)} {k : α} {v : β} {x : α × β}
    (h : x ∈ dset d k v) : x ∈ d ∨ x = (k, v) := by
  unfold dset at h
  by_cases hany : d.any (fun e => decide (e.1 = k)) = true
  · rw [if_pos hany] at h
    obtain ⟨e, he, hx⟩ := List.mem_map.mp h
    by_cases hek : e.1 = k
    · right
      rw [← hx]
      simp [hek]
    · left
      rw [← hx]
      simpa [hek] using he
  · rw [if_neg hany] at h
    rcases List.mem_append.mp h with hin | hone
    · exact Or.inl hin
    · exact Or.inr (by simpa using hone)

theorem nodup_keys_dset [DecidableEq α] {d : List (α × β)} {k : α} {v : β}
    (h : (d.map Prod.fst).Nodup) : ((dset d k v).map Prod.fst).Nodup := by
  unfold dset
  by_cases hany : d.any (fun e => decide (e.1 = k)) = true
  · rw [if_pos hany]
    have hkeys : (d.map (fun e => if e.1 = k then (k, v) else e)).map Prod.fst
        = d.map Prod.fst := by
      rw [List.map_map]
      exact List.map_congr_left (fun e he => by by_cases hek : e.1 = k <;> simp [hek])
    rw [hkeys]
    exact h
  · rw [if_neg hany, List.map_append]
    refine List.Nodup.append h (by simp) ?_
    intro a ha hb
    have hak : a = k := by simpa using hb
    subst hak
    obtain ⟨e, he, hek⟩ := List.mem_map.mp ha
    exact hany (List.any_eq_true.mpr ⟨e, he, by simp [hek]⟩)

theorem viz_build_go_mem (store : Store) (hs : List String)
    (g g' : List (String × List String)) (c : String) (ps : List String)
    (hb : Viz.build_commit_graph_go store hs g = .ok g')
    (hmem : (c, ps) ∈ g') :
    (c, ps) ∈ g ∨ ∃ content s t a, Viz.read_git_object store c = .ok content ∧
      decodeAscii content = some s ∧ Viz.parse_commit_object s = .ok (t, ps, a) := by
  induction hs generalizing g with
  | nil =>
    unfold Viz.build_commit_graph_go at hb
    cases hb
    exact Or.inl hmem
  | cons hsh rest ih =>
    unfold Viz.build_commit_graph_go at hb
    split at hb
    · exact absurd hb (by simp)
    · rename_i content hre
      split at hb
      · exact absurd hb (by simp)
      · rename_i s hdec
        split at hb
        · exact absurd hb (by simp)
        · rename_i trip tpar hp
          rcases ih _ hb with hg | hfound
          · rcases mem_dset hg with hing | heq
            · exact Or.inl hing
            · rw [Prod.mk.injEq] at heq
              obtain ⟨hc, hps⟩ := heq
              subst hc
              subst hps
              exact Or.inr ⟨content, s, _, _, hre, hdec, hp⟩
          · exact Or.inr hfound

theorem viz_build_go_keys_nodup (store : Store) (hs : List String)
    (g g' : List (String × List String))
    (hb : Viz.build_commit_graph_go store hs g = .ok g')
    (hnd : (g.map Prod.fst).Nodup) : (g'.map Prod.fst).Nodup := by
  induction hs generalizing g with
  | nil =>
    unfold Viz.build_commit_graph_go at hb
    cases hb
    exact hnd
  | cons hsh rest ih =>
    unfold Viz.build_commit_graph_go at hb
    split at hb
    · exact absurd hb (by simp)
    · rename_i content hre
      split at hb
      · exact absurd hb (by simp)
      · rename_i s hdec
        split at hb
        · exact absurd hb (by simp)
        · rename_i trip tpar hp
          exact ih _ hb (nodup_keys_dset hnd)

theorem gdv_parse_bytes_ok {data : Bytes} {md : Dict}
    (h : GDV.parse_commit_data_bytes data = .ok md) : data = [] ∧ md = [] := by
  unfold GDV.parse_commit_data_bytes at h
  by_cases he : data.isEmpty = true
  · rw [if_pos he] at h
    cases h
    exact ⟨List.isEmpty_iff.mp he, rfl⟩
  · rw [if_neg he] at h
    exact absurd h (by simp)

theorem gdv_build_go_mem (store : Store) (hs : List String)
    (g g' : List (String × List String)) (c : String) (ps : List String)
    (hb : GDV.build_dependency_graph_go store hs g = .ok g')
    (hmem : (c, ps) ∈ g') :
    (c, ps) ∈ g ∨ ∃ header data, GDV.read_git_object store c = .ok (header, data) ∧
      data = [] ∧ ps = [] := by
  induction hs generalizing g with
  | nil =>
    unfold GDV.build_dependency_graph_go at hb
    cases hb
    exact Or.inl hmem
  | cons hsh rest ih =>
    unfold GDV.build_dependency_graph_go at hb
    split at hb
    · exact absurd hb (by simp)
    · rename_i header data hre
      split at hb
      · exact absurd hb (by simp)
      · rename_i md hmd
        obtain ⟨hdata, hmdnil⟩ := gdv_parse_bytes_ok hmd
        rcases ih _ hb with hg | hfound
        · rcases mem_dset hg with hing | heq
          · exact Or.inl hing
          · rw [Prod.mk.injEq] at heq
            obtain ⟨hc, hps⟩ := heq
            subst hc
            refine Or.inr ⟨header, data, hre, hdata, ?_⟩
            rw [hps, hmdnil]
            rfl
        · exact Or.inr hfound

theorem plantuml_inner_filter_length (commit c : String) (i : Nat) (ps : List String) :
    ((Viz.plantuml_inner commit i ps).filter (fun e => decide (e.2.1 = c))).length
      = if commit = c then ps.length else 0 := by
  induction ps generalizing i with
  | nil => by_cases hc : commit = c <;> simp [Viz.plantuml_inner, hc]
  | cons p rest ih =>
    by_cases hc : commit = c
    · subst hc
      simp [Viz.plantuml_inner, List.filter_cons, ih]
    · simp [Viz.plantuml_inner, List.filter_cons, hc, ih]

theorem plantuml_triples_filter_zero (graph : List (String × List String)) (i : Nat)
    (c : String) (hnk : c ∉ graph.map Prod.fst) :
    ((Viz.plantuml_triples graph i).filter (fun e => decide (e.2.1 = c))).length = 0 := by
  induction graph generalizing i with
  | nil => simp [Viz.plantuml_triples]
  | cons e rest ih =>
    obtain ⟨commit, parents⟩ := e
    have hcne : commit ≠ c := by
      intro hq
      exact hnk (by simp [hq])
    have hnk' : c ∉ rest.map Prod.fst := fun hq => hnk (by simp [hq])
    unfold Viz.plantuml_triples
    by_cases hpe : parents.isEmpty = true
    · rw [if_pos hpe]
      exact ih _ hnk'
    · rw [if_neg hpe]
      rw [List.filter_append, List.length_append,
        plantuml_inner_filter_length, if_neg hcne, ih _ hnk']

theorem plantuml_triples_filter_length (graph : List (String × List String)) (i : Nat)
    (c : String) (ps : List String) (hnd : (graph.map Prod.fst).Nodup)
    (hmem : (c, ps) ∈ graph) :
    ((Viz.plantuml_triples graph i).filter (fun e => decide (e.2.1 = c))).length
      = ps.length := by
  induction graph generalizing i with
  | nil => simp at hmem
  | cons e rest ih =>
    obtain ⟨commit, parents⟩ := e
    rw [List.map_cons, List.nodup_cons] at hnd
    obtain ⟨hknotin, hnd'⟩ := hnd
    rcases List.mem_cons.mp hmem with heq | hmem'
    · rw [Prod.mk.injEq] at heq
      obtain ⟨hc, hps⟩ := heq
      subst hc
      subst hps
      unfold Viz.plantuml_triples
      by_cases hpe : ps.isEmpty = true
      · rw [if_pos hpe]
        rw [plantuml_triples_filter_zero rest _ c hknotin]
        rw [List.isEmpty_iff.mp hpe]
        rfl
      · rw [if_neg hpe]
        rw [List.filter_append, List.length_append,
          plantuml_inner_filter_length, if_pos rfl,
          plantuml_triples_filter_zero rest _ c hknotin]
        omega
    · have hcne : commit ≠ c := by
        intro hq
        subst hq
        exact hknotin (List.mem_map.mpr ⟨(commit, ps), hmem', rfl⟩)
      unfold Viz.plantuml_triples
      by_cases hpe : parents.isEmpty = true
      · rw [if_pos hpe]
        exact ih _ hnd' hmem'
      · rw [if_neg hpe]
        rw [List.filter_append, List.length_append,
          plantuml_inner_filter_length, if_neg hcne, ih _ hnd' hmem']
        omega

/-- C3: a merge commit with N parent header lines that is included in a
CommitGraph gets exactly N edge statements in the rendered output.  For
the diagram-markup pipeline (visualizer.py): a commit of the built graph
carries exactly the parsed parent list, whose length is the number of
`parent` header lines of its decoded payload, and the renderer emits
exactly that many edge triples naming it as child.  For the DOT pipeline
(git_dependency_visualizer.py): any commit included in a built dependency
graph necessarily has an empty payload (a nonempty payload raises
TypeError in `parse_commit_data`), hence zero parent lines and an empty
parent list — so its node gets exactly its N = 0 edges, and no merge
commit can be included at all. -/
theorem c3_merge_commit_edge_count (store : Store) (cutoff : Int)
    (graph : List (String × List String)) (c : String) (ps : List String)
    (content : Bytes) (s : String) (t : Option String) (ps' : List String)
    (a : Option Int) (store2 : Store) (commits2 : List String)
    (g2 : List (String × List String)) (c2 : String) (ps2 : List String)
    (hdr2 : String) (data2 : Bytes)
    (hb : Viz.build_commit_graph store cutoff = .ok graph)
    (hmem : (c, ps) ∈ graph)
    (hr : Viz.read_git_object store c = .ok content)
    (hd : decodeAscii content = some s)
    (hp : Viz.parse_commit_object s = .ok (t, ps', a))
    (hb2 : GDV.build_dependency_graph store2 commits2 = .ok g2)
    (hmem2 : (c2, ps2) ∈ g2)
    (hr2 : GDV.read_git_object store2 c2 = .ok (hdr2, data2)) :
    ps = ps'
    ∧ ps'.length = (headerParentLines (pyLines s)).length
    ∧ ((Viz.plantuml_triples graph 1).filter (fun e => decide (e.2.1 = c))).length
        = (headerParentLines (pyLines s)).length
    ∧ ps2 = [] ∧ data2 = [] := by
  have hps : ps = ps' := by
    rcases viz_build_go_mem store _ [] graph c ps hb hmem with hin | hfound
    · simp at hin
    · obtain ⟨content', s', t', a', hr', hd', hp'⟩ := hfound
      rw [hr] at hr'
      cases hr'
      rw [hd] at hd'
      cases hd'
      rw [hp] at hp'
      injection hp' with h1
      injection h1 with h2 h3
      injection h3 with h4 h5
      exact h4.symm
  have hlen : ps'.length = (headerParentLines (pyLines s)).length := by
    have := viz_parse_go_parents (pyLines s) none [] none t ps' a hp
    rw [List.nil_append] at this
    rw [this]
    simp [headerParentTokens]
  have hnd : (graph.map Prod.fst).Nodup :=
    viz_build_go_keys_nodup store _ [] graph hb (by simp)
  have hcount := plantuml_triples_filter_length graph 1 c ps hnd hmem
  have hdot : ps2 = [] ∧ data2 = [] := by
    rcases gdv_build_go_mem store2 _ [] g2 c2 ps2 hb2 hmem2 with hin | hfound
    · simp at hin
    · obtain ⟨hdr', data', hr', hdata', hps'⟩ := hfound
      rw [hr2] at hr'
      cases hr'
      exact ⟨hps', hdata'⟩
  refine ⟨hps, hlen, ?_, hdot.1, hdot.2⟩
  rw [hcount, hps, hlen]

/-- Witness for C3: in the graph built from the author-stamped merge
store, `hashM` maps to its two parsed parents and receives exactly two
edge triples; the DOT pipeline's graph contains only the empty-payload
commit, with zero edges. -/
theorem c3_merge_commit_edge_count_witness :
    (([hashA, hashB] : List String) = [hashA, hashB]
    ∧ ([hashA, hashB] : List String).length
        = (headerParentLines (pyLines textVizM)).length
    ∧ ((Viz.plantuml_triples [(hashA, []), (hashB, []), (hashM, [hashA, hashB])] 1).filter
          (fun e => decide (e.2.1 = hashM))).length
        = (headerParentLines (pyLines textVizM)).length
    ∧ ([] : List String) = [] ∧ ([] : Bytes) = []) :=
  c3_merge_commit_edge_count storeVizMerge 300
    [(hashA, []), (hashB, []), (hashM, [hashA, hashB])] hashM [hashA, hashB]
    (asciiBytes textVizM) textVizM none [hashA, hashB] (some 200)
    storeEmptyPayload ["hh"] [("hh", [])] "hh" [] "commit 0" []
    (by decide) (by decide) (by decide) (by decide) (by decide) (by decide) (by decide)
    (by decide)

/-- Witness for C6: over the store with tree hashes `aaa111` and `bbb222`,
filtering for `aaa` returns only the first commit, and the
characterization holds at `"h1"`. -/
theorem c6_scan_filter_includes_by_tree_substring_witness :
    ("h1" ∈ (["h1"] : List String) ↔
      ∃ e ∈ storeTrees, e.1 = "h1" ∧ gdvIncluded "aaa" e.2)
    ∧ GDV.find_commits storeTrees "aaa" = .ok (["h1"], []) :=
  ⟨c6_scan_filter_includes_by_tree_substring storeTrees "aaa" ["h1"] [] "h1" (by decide),
   by decide⟩

end GitViz
